import Mathlib

/-!
Verification of the MNIST Redis vector-search program (`main.go`).

The Go program ingests CSV rows (a label followed by raw pixel intensities),
normalizes the pixels, stores one JSON record per row in Redis under the key
`number:<rowIndex>:<label>`, and then evaluates a held-out CSV by issuing one
KNN query per row and aggregating accuracy and latency statistics.

The shallow embedding below models:
  * `strconv.Atoi` on tokenized CSV fields (`atoi`),
  * the IEEE-754 single-precision value of `float32(p) / 255.0` (`qm`/`qe`),
    as an exact significand/exponent pair computed with integer arithmetic,
  * Go's `fmt.Sprintf` with verb `%.6f` on such a value (`sNum`),
  * `StoreData`'s per-row processing and key construction (`storeRow`,
    `storeRows`, `StoreData`, `mkKey`),
  * `SearchData`'s evaluation loop and final report (`evalLoop`,
    `SearchData`, `accuracyExpr`),
  * the reply-parsing tail of `searchVectorInRedis` (`parseSearchReply`).

External collaborators (the Redis server and the wall clock) are modelled as
an environment function passed to `SearchData`: the i-th executed FT.SEARCH
call produces the environment's i-th outcome (a parsed label and a measured
latency in truncated milliseconds, or a failure).  CSV rows are taken as
already tokenized lists of fields (`List Char` per field); the quoting layer
of `encoding/csv` is out of scope, but its uniform-field-count check
(`ErrFieldCount`, raised by `ReadAll` when a record's field count differs
from the first record's) is modelled by `readAll`.
-/

/-! ### `strconv.Atoi`, `%d` formatting, and `strings.Split` -/

/-- The characters consumed by `strconv.Atoi` after the sign: ASCII digits. -/
def isDigitChar (c : Char) : Bool := 48 ≤ c.toNat && c.toNat ≤ 57

/-- Numeric value of an ASCII digit character. -/
def digitVal (c : Char) : ℕ := c.toNat - 48

/-- Accumulate decimal digits left to right, as `strconv.Atoi` does. -/
def parseDigits (s : List Char) : ℕ :=
  s.foldl (fun a c => 10 * a + digitVal c) 0

/-- The digits-only part of `strconv.Atoi`: at least one character, all ASCII
digits.  (The `int64` overflow check of `strconv.ParseInt` is not modelled;
every input appearing in the theorems below is far below that bound.) -/
def atoiNat (s : List Char) : Option ℕ :=
  if s ≠ [] ∧ s.all isDigitChar then some (parseDigits s) else none

/-- Model of `strconv.Atoi`: an optional single `+`/`-` sign followed by one
or more decimal digits; anything else is a parse error (`none`). -/
def atoi (s : List Char) : Option ℤ :=
  match s with
  | [] => none
  | c :: rest =>
    if c = '+' then (atoiNat rest).map (fun n => (n : ℤ))
    else if c = '-' then (atoiNat rest).map (fun n => -(n : ℤ))
    else (atoiNat (c :: rest)).map (fun n => (n : ℤ))

/-- Little-endian decimal digits of `n`, with explicit structural fuel so the
kernel can evaluate it (the fuel is sufficient whenever `n ≤ fuel`). -/
def natDigitsRev : ℕ → ℕ → List ℕ
  | 0, _ => []
  | fuel + 1, n => if n = 0 then [] else n % 10 :: natDigitsRev fuel (n / 10)

/-- Decimal rendering of a natural number, as `fmt.Sprintf` verb `%d`. -/
def natToChars (n : ℕ) : List Char :=
  if n = 0 then ['0'] else ((natDigitsRev n n).reverse.map Nat.digitChar)

/-- Decimal rendering of an integer, as `fmt.Sprintf` verb `%d`. -/
def intToChars (z : ℤ) : List Char :=
  if z < 0 then '-' :: natToChars z.natAbs else natToChars z.toNat

/-- The characters of the literal key prefix `number`. -/
def numberPrefix : List Char := ['n', 'u', 'm', 'b', 'e', 'r']

/-- The Redis key built at main.go:87: `fmt.Sprintf("number:%d:%d", i, result)`. -/
def mkKey (i : ℕ) (result : ℤ) : List Char :=
  numberPrefix ++ ':' :: (natToChars i ++ ':' :: intToChars result)

/-- Model of `strings.Split(s, ":")` (main.go:213): the (possibly empty)
chunks of `s` between colons; always at least one chunk. -/
def splitOnColon : List Char → List (List Char)
  | [] => [[]]
  | c :: rest =>
    if c = ':' then [] :: splitOnColon rest
    else
      match splitOnColon rest with
      | [] => [[c]]
      | g :: gs => (c :: g) :: gs

/-! ### IEEE-754 `binary32` semantics of the normalization expressions

Go evaluates `float32(pixelInt) / 255.0` with hardware IEEE-754 single
precision: the `int`→`float32` conversion and the division are each correctly
rounded to 24 significand bits, round-to-nearest with ties to even.  We model
a positive value exactly as an unreduced fraction `a / b` of naturals and
compute the rounded significand/exponent with pure integer arithmetic, so the
kernel can evaluate everything; ℚ enters only through the interpretation
`(m : ℚ) * 2 ^ e`.  Subnormal and overflow ranges are not modelled; every
value reaching these functions lies well inside the normal range. -/

/-- Round `a / b` (with `b ≠ 0`) to the nearest natural, ties to even — the
rounding of IEEE-754 arithmetic and of Go's fixed-precision formatting. -/
def rneN (a b : ℕ) : ℕ :=
  let q := a / b
  let r := a % b
  if 2 * r < b then q
  else if b < 2 * r then q + 1
  else if q % 2 = 0 then q else q + 1

/-- Fuelled ceiling log₂: the least `k` with `n ≤ 2 ^ k` (for `n ≤ fuel`). -/
def clog2F : ℕ → ℕ → ℕ
  | 0, _ => 0
  | fuel + 1, n => if n ≤ 1 then 0 else clog2F fuel ((n + 1) / 2) + 1

/-- Fuelled floor log₂: the greatest `k` with `2 ^ k ≤ n` (for `1 ≤ n ≤ fuel`). -/
def flog2F : ℕ → ℕ → ℕ
  | 0, _ => 0
  | fuel + 1, n => if n ≤ 1 then 0 else flog2F fuel (n / 2) + 1

/-- `⌊log₂ (a / b)⌋` for positive naturals: the unique `e` with
`2 ^ e ≤ a / b < 2 ^ (e + 1)`. -/
def qlog2 (a b : ℕ) : ℤ :=
  if b ≤ a then (flog2F (a / b) (a / b) : ℤ)
  else -(clog2F ((b + a - 1) / a) ((b + a - 1) / a) : ℤ)

/-- Significand of the `binary32` value nearest `a / b` (both positive): the
fraction is scaled into `[2 ^ 23, 2 ^ 24]` and rounded to an integer; exactly
one of the two shifts below is nonzero. -/
def f32m (a b : ℕ) : ℕ :=
  let e := qlog2 a b
  rneN (a * 2 ^ (23 - e).toNat) (b * 2 ^ (e - 23).toNat)

/-- Exponent paired with `f32m`: the rounded value is `f32m a b * 2 ^ f32e a b`. -/
def f32e (a b : ℕ) : ℤ := qlog2 a b - 23

/-- Numerator of `float32(p)` (for `p ≥ 1`) viewed as the exact fraction
`divNum p / divDen p` after dividing by the exactly representable `255.0`. -/
def divNum (p : ℕ) : ℕ := f32m p 1 * 2 ^ (f32e p 1).toNat

/-- Denominator of `float32(p) / 255.0` viewed as an exact fraction. -/
def divDen (p : ℕ) : ℕ := 255 * 2 ^ (-(f32e p 1)).toNat

/-- Significand of the exact `binary32` result of `float32(p) / 255.0`. -/
def qm (p : ℕ) : ℕ := f32m (divNum p) (divDen p)

/-- Exponent of the exact `binary32` result of `float32(p) / 255.0`. -/
def qe (p : ℕ) : ℤ := f32e (divNum p) (divDen p)

/-- The integer `n` such that `fmt.Sprintf("%.6f", float32(p)/255.0)` denotes
`n / 10 ^ 6` (main.go:78): Go's fixed-precision formatting rounds the binary
value correctly to six decimal places, ties to even. -/
def sNum (p : ℕ) : ℕ :=
  rneN (qm p * 10 ^ 6 * 2 ^ (qe p).toNat) (2 ^ (-(qe p)).toNat)

/-- The value computed for one raw pixel by `SearchData` (main.go:137): the
exact rational denoted by the `float32` quotient `float32(p) / 255.0`, which
is sent to the index as a 4-byte blob.  Negative inputs (impossible for MNIST
data but accepted by `strconv.Atoi`) use the sign symmetry of IEEE-754. -/
def queryPixelVal (p : ℤ) : ℚ :=
  if p = 0 then 0
  else (p.sign : ℚ) * ((qm p.natAbs : ℚ) * 2 ^ qe p.natAbs)

/-- The value stored for one raw pixel by `StoreData` (main.go:74-79): the
literal `"0"` for a zero pixel, otherwise the exact rational denoted by the
6-decimal rendering of `float32(p) / 255.0` placed in the JSON document. -/
def storedPixelVal (p : ℤ) : ℚ :=
  if p = 0 then 0
  else (p.sign : ℚ) * ((sNum p.natAbs : ℚ) / 10 ^ 6)

-- Quick sanity checks of the embedding on concrete values.
example : atoi ['4', '2'] = some 42 := by decide
example : atoi ['-', '7'] = some (-7) := by decide
example : atoi ['+', '7'] = some 7 := by decide
example : atoi ['x'] = none := by decide
example : atoi [] = none := by decide
example : atoi ['+'] = none := by decide
example : splitOnColon ['a', ':', 'b'] = [['a'], ['b']] := by decide
example : natToChars 407 = ['4', '0', '7'] := by decide
example : intToChars (-35) = ['-', '3', '5'] := by decide
-- float32(1)/255.0 = 8421505 * 2^-31 = 0x3B808081 = 0.0039215688593685627...
example : qm 1 = 8421505 ∧ qe 1 = -31 := by decide
-- float32(128)/255.0 = 8421505 * 2^-24
example : qm 128 = 8421505 ∧ qe 128 = -24 := by decide
-- float32(255)/255.0 = 1.0 exactly
example : qm 255 = 8388608 ∧ qe 255 = -23 := by decide
-- "%.6f" of float32(1)/255.0 is "0.003922"
example : sNum 1 = 3922 := by decide
-- "%.6f" of float32(254)/255.0 = 0.99607843... is "0.996078"
example : sNum 254 = 996078 := by decide

/-! ### Outcomes of Go computations

A Go function in this program either returns normally, returns an `error`,
or hits a runtime panic (index out of range, failed type assertion, integer
division by zero).  Error values are modelled by tags; the program only ever
branches on error being non-nil, never on its contents. -/

/-- Tags for the `error` values produced or propagated in `main.go`. -/
inductive GoErr where
  /-- `fmt.Errorf("unexpected result format")` (main.go:210). -/
  | fmtUnexpected : GoErr
  /-- A `strconv.Atoi` parse error. -/
  | parseFailure : GoErr
  /-- `csv.ErrFieldCount` from `reader.ReadAll`. -/
  | fieldCount : GoErr
  /-- An error surfaced by the Redis client (connection, server reply, ...). -/
  | external : GoErr
deriving DecidableEq

/-- Go runtime panics reachable in the modelled code. -/
inductive GoPanic where
  | idxOutOfRange : GoPanic
  | typeAssertFailed : GoPanic
  | divByZero : GoPanic
deriving DecidableEq

/-- Result of running a (modelled) Go function. -/
inductive GoResult (α : Type) where
  | ok : α → GoResult α
  | err : GoErr → GoResult α
  | panicked : GoPanic → GoResult α
deriving DecidableEq

/-! ### `StoreData` (main.go:38-97)

`StoreData` reads the whole training CSV with `reader.ReadAll`, then walks the
rows; for each row it parses the label (`record[0]`) and every pixel field
with `strconv.Atoi`, builds the embedding string, and immediately issues a
`JSON.SET` for the key `number:<i>:<label>`.  Any parse error aborts the
function at that row, *after* the earlier rows' `JSON.SET` calls have already
executed.  The model returns the list of records written to the backend
together with the function's outcome.  (`JSON.SET` itself is assumed to
succeed; a backend failure would merely abort the loop earlier, which no
claim depends on.) -/

/-- Left-to-right traversal of a row's pixel fields, stopping at the first
field `f` rejects — the shape of the pixel loops at main.go:68-80 and
main.go:131-139. -/
def optionMapAll {α β : Type} (f : α → Option β) : List α → Option (List β)
  | [] => some []
  | a :: t =>
    match f a with
    | none => none
    | some b =>
      match optionMapAll f t with
      | none => none
      | some v => some (b :: v)

/-- One JSON document written by `StoreData`: the Redis key, the `result`
field, and the exact rationals denoted by the `embedding` array entries. -/
structure StoredRec where
  key : List Char
  result : ℤ
  emb : List ℚ
deriving DecidableEq

/-- Per-row work of `StoreData` (main.go:56-92): parse the label, parse and
normalize every pixel, and build the document for key `number:<i>:<label>`.
An empty record would panic at `record[0]`; `encoding/csv` never produces
one, but the model keeps the case explicit. -/
def storeRow (i : ℕ) (record : List (List Char)) : GoResult StoredRec :=
  match record with
  | [] => .panicked .idxOutOfRange
  | lab :: pixels =>
    match atoi lab with
    | none => .err .parseFailure
    | some result =>
      match optionMapAll (fun s => (atoi s).map storedPixelVal) pixels with
      | none => .err .parseFailure
      | some emb => .ok ⟨mkKey i result, result, emb⟩

/-- The row loop of `StoreData`: rows are written one at a time; the first
failing row aborts the loop, keeping everything written before it. -/
def storeRows (i : ℕ) : List (List (List Char)) → List StoredRec × GoResult Unit
  | [] => ([], .ok ())
  | r :: rest =>
    match storeRow i r with
    | .ok rec =>
      let (tl, res) := storeRows (i + 1) rest
      (rec :: tl, res)
    | .err e => ([], .err e)
    | .panicked m => ([], .panicked m)

/-- Model of `csv.Reader.ReadAll` on already-tokenized lines: every record
must have as many fields as the first record, else `ErrFieldCount` (Go's
`csv.Reader` sets `FieldsPerRecord` from the first record it reads). -/
def readAll (rows : List (List (List Char))) : GoResult Unit :=
  match rows with
  | [] => .ok ()
  | r0 :: _ =>
    if rows.all (fun r => r.length == r0.length) then .ok () else .err .fieldCount

/-- `StoreData` (main.go:38-97) on the tokenized training CSV: the records
written to the backend, and the outcome. -/
def StoreData (rows : List (List (List Char))) : List StoredRec × GoResult Unit :=
  match readAll rows with
  | .ok _ => storeRows 0 rows
  | .err e => ([], .err e)
  | .panicked m => ([], .panicked m)

/-! ### `searchVectorInRedis` (main.go:182-225)

The function serializes the query embedding, sends `FT.SEARCH ... KNN 1 ...`,
and parses the reply.  A RESP reply is an integer, a string, or an array of
replies; `FT.SEARCH` answers with an array whose first element is the match
count, followed by key/fields pairs.  The Go code checks only that the reply
is a non-empty array, then evaluates `items[1].(string)` and converts the
text after the last `:` with `strconv.Atoi`. -/

/-- A RESP reply value as surfaced by `go-redis`'s `Cmd.Result()`. -/
inductive RVal where
  | rint : ℤ → RVal
  | rstr : List Char → RVal
  | rarr : List RVal → RVal

/-- The reply-parsing tail of `searchVectorInRedis` (main.go:208-224):
`result.([]interface{})` with a `!ok || len(items) == 0` guard, then
`items[1].(string)`, `strings.Split` on `":"`, indexing the last part, and
`strconv.Atoi`. -/
def parseSearchReply (result : RVal) : GoResult ℤ :=
  match result with
  | .rarr items =>
    if items.length = 0 then .err .fmtUnexpected
    else
      match items.get? 1 with
      | none => .panicked .idxOutOfRange
      | some (.rstr s) =>
        let parts := splitOnColon s
        match parts.getLast? with
        | none => .panicked .idxOutOfRange
        | some lastPart =>
          match atoi lastPart with
          | none => .err .parseFailure
          | some n => .ok n
      | some _ => .panicked .typeAssertFailed
  | _ => .err .fmtUnexpected

/-- `searchVectorInRedis` (main.go:182-225) given the backend's reply and the
measured latency of the call: on success, the digit parsed from the matched
key plus the latency; errors and panics propagate. -/
def searchVectorInRedis (reply : RVal) (duration : ℤ) : GoResult (ℤ × ℤ) :=
  match parseSearchReply reply with
  | .ok n => .ok (n, duration)
  | .err e => .err e
  | .panicked m => .panicked m

-- The reply parser on a well-formed hit and on assorted malformed replies.
example :
    parseSearchReply (.rarr [.rint 1, .rstr (mkKey 3 7), .rarr []]) = .ok 7 := by
  decide
example : parseSearchReply (.rarr []) = .err .fmtUnexpected := by decide
example : parseSearchReply (.rint 0) = .err .fmtUnexpected := by decide
example : parseSearchReply (.rarr [.rint 0, .rint 9]) = .panicked .typeAssertFailed := by
  decide

/-! ### `SearchData` (main.go:99-169)

`SearchData` reads the test CSV with `ReadAll`, then for each row parses the
expected label and the pixels, normalizes them, and calls
`searchVectorInRedis`; any error aborts the function immediately.  On a
successful call it folds the measured latency into running min/max/total
(initialized to `999999`/`0`/`0` in `main`, main.go:228-230) and counts the
prediction as correct or wrong.  After the loop it prints the summary, whose
accuracy and average-latency expressions use Go integer division (truncation
toward zero), panicking at runtime when a divisor is `0`.

The Redis server and the wall clock are abstracted as an environment
`env : ℕ → List ℚ → GoResult (ℤ × ℤ)`: the i-th executed search call, given
the query embedding, yields a parsed label and a latency (in truncated
milliseconds, as `time.Since(start).Milliseconds()`), or fails.  Indexing by
call sequence number models the statefulness of the external world; the Go
function itself receives only the embedding. -/

/-- The mutable state folded through `SearchData`'s loop: the three latency
globals of main.go:20 plus the two local counters. -/
structure EvalState where
  minD : ℤ
  maxD : ℤ
  totalD : ℤ
  correct : ℤ
  wrong : ℤ
deriving DecidableEq

/-- The values printed by the final report (main.go:161-166). -/
structure Summary where
  correct : ℤ
  wrong : ℤ
  acc : ℤ
  minD : ℤ
  maxD : ℤ
  avgD : ℤ
deriving DecidableEq

/-- The accuracy expression of main.go:163, `100*correctGuess/(wrongGuess+correctGuess)`,
with Go's `int` division (truncation toward zero, `Int.tdiv`). -/
def accuracyExpr (correct wrong : ℤ) : ℤ :=
  Int.tdiv (100 * correct) (wrong + correct)

/-- The per-row loop of `SearchData` (main.go:119-160): parse the expected
label and the pixels, call the search (the `i`-th external outcome), abort on
any error, otherwise fold the latency into the running statistics and bump
the correct/wrong counter. -/
def evalLoop (env : ℕ → List ℚ → GoResult (ℤ × ℤ)) :
    List (List (List Char)) → ℕ → EvalState → GoResult EvalState
  | [], _, st => .ok st
  | record :: rest, i, st =>
    match record with
    | [] => .panicked .idxOutOfRange
    | lab :: pixels =>
      match atoi lab with
      | none => .err .parseFailure
      | some expected =>
        match optionMapAll (fun s => (atoi s).map queryPixelVal) pixels with
        | none => .err .parseFailure
        | some emb =>
          match env i emb with
          | .err e => .err e
          | .panicked m => .panicked m
          | .ok (found, duration) =>
            let st1 : EvalState :=
              { minD := if duration < st.minD then duration else st.minD
                maxD := if duration > st.maxD then duration else st.maxD
                totalD := st.totalD + duration
                correct := st.correct
                wrong := st.wrong }
            let st2 : EvalState :=
              if expected = found then { st1 with correct := st1.correct + 1 }
              else { st1 with wrong := st1.wrong + 1 }
            evalLoop env rest (i + 1) st2

/-- `SearchData` (main.go:99-169) on the tokenized test CSV, with the
latency globals initialized as in `main` (main.go:228-230).  The two final
divisions execute in source order: the accuracy expression of main.go:163
panics when `wrongGuess+correctGuess` is zero, and the average of main.go:166
panics when `len(records)` is zero. -/
def SearchData (env : ℕ → List ℚ → GoResult (ℤ × ℤ))
    (rows : List (List (List Char))) : GoResult Summary :=
  match readAll rows with
  | .err e => .err e
  | .panicked m => .panicked m
  | .ok _ =>
    match evalLoop env rows 0 ⟨999999, 0, 0, 0, 0⟩ with
    | .err e => .err e
    | .panicked m => .panicked m
    | .ok st =>
      if st.wrong + st.correct = 0 then .panicked .divByZero
      else if (rows.length : ℤ) = 0 then .panicked .divByZero
      else
        .ok ⟨st.correct, st.wrong, accuracyExpr st.correct st.wrong,
             st.minD, st.maxD, Int.tdiv st.totalD (rows.length : ℤ)⟩

/-! ### Row well-formedness predicates -/

/-- A tokenized CSV row that `StoreData`/`SearchData` processes without a
parse error: non-empty, numeric label, numeric pixels. -/
def RowOk (r : List (List Char)) : Prop :=
  r ≠ [] ∧ atoi r.headI ≠ none ∧ ∀ p ∈ r.tail, atoi p ≠ none

instance : DecidablePred RowOk := fun r => by
  unfold RowOk; infer_instance

/-- A tokenized CSV row on which the per-row parsing fails: non-empty (so no
index panic) but with a malformed label or some malformed pixel. -/
def BadRow (r : List (List Char)) : Prop :=
  r ≠ [] ∧ (atoi r.headI = none ∨ ∃ p ∈ r.tail, atoi p = none)

instance : DecidablePred BadRow := fun r => by
  unfold BadRow; infer_instance

-- End-to-end sanity checks of the models on tiny concrete inputs.
example : (StoreData [[['5'], ['0']], [['3'], ['9']]]).2 = .ok () := by decide
example : (StoreData [[['5'], ['0']], [['3'], ['9']]]).1.length = 2 := by decide
example : (StoreData [[['5'], ['0']], [['3']]]).2 = .err .fieldCount := by decide
example :
    SearchData (fun _ _ => .ok (0, 3)) [[['0']]] =
      .ok ⟨1, 0, 100, 3, 3, 3⟩ := by decide
example :
    SearchData (fun _ _ => .ok (1, 3)) [[['0']], [['1']]] =
      .ok ⟨1, 1, 50, 3, 3, 3⟩ := by decide
example : SearchData (fun _ _ => .err .external) [[['0']]] = .err .external := by decide

/-! ### Lemmas: decimal rendering and `Atoi` round-trips -/

theorem natDigitsRev_lt10 {fuel n : ℕ} : ∀ d ∈ natDigitsRev fuel n, d < 10 := by
  induction fuel generalizing n with
  | zero => simp [natDigitsRev]
  | succ fuel ih =>
    intro d hd
    simp only [natDigitsRev] at hd
    split at hd
    · simp at hd
    · rcases List.mem_cons.1 hd with h | h
      · omega
      · exact ih d h

theorem ofDigits_natDigitsRev {fuel n : ℕ} (h : n ≤ fuel) :
    Nat.ofDigits 10 (natDigitsRev fuel n) = n := by
  induction fuel generalizing n with
  | zero =>
    interval_cases n
    simp [natDigitsRev]
  | succ fuel ih =>
    simp only [natDigitsRev]
    split
    · subst_eqs; simp
    · rename_i hn
      have hdiv : n / 10 ≤ fuel := by
        have := Nat.div_lt_self (Nat.pos_of_ne_zero hn) (by norm_num : 1 < 10)
        omega
      rw [Nat.ofDigits_cons, ih hdiv]
      omega

theorem natDigitsRev_ne_nil {fuel n : ℕ} (h1 : 1 ≤ n) (h2 : n ≤ fuel) :
    natDigitsRev fuel n ≠ [] := by
  cases fuel with
  | zero => omega
  | succ fuel => simp [natDigitsRev, (show ¬n = 0 by omega)]

theorem isDigitChar_digitChar {d : ℕ} (h : d < 10) :
    isDigitChar (Nat.digitChar d) = true := by
  interval_cases d <;> decide

theorem digitVal_digitChar {d : ℕ} (h : d < 10) : digitVal (Nat.digitChar d) = d := by
  interval_cases d <;> decide

theorem digitChar_ne_colon {d : ℕ} (h : d < 10) : Nat.digitChar d ≠ ':' := by
  interval_cases d <;> decide

theorem parseDigits_append_singleton (xs : List Char) (c : Char) :
    parseDigits (xs ++ [c]) = 10 * parseDigits xs + digitVal c := by
  simp [parseDigits, List.foldl_append]

theorem parseDigits_rev_ofDigits (ds : List ℕ) (h10 : ∀ d ∈ ds, d < 10) :
    parseDigits (ds.reverse.map Nat.digitChar) = Nat.ofDigits 10 ds := by
  induction ds with
  | nil => simp [parseDigits, Nat.ofDigits]
  | cons d t ih =>
    have hd : d < 10 := h10 d (List.mem_cons_self d t)
    have ht : ∀ x ∈ t, x < 10 := fun x hx => h10 x (List.mem_cons_of_mem d hx)
    simp only [List.reverse_cons, List.map_append, List.map_cons, List.map_nil,
      parseDigits_append_singleton, ih ht, Nat.ofDigits_cons,
      digitVal_digitChar hd]
    ring

theorem natToChars_ne_nil (n : ℕ) : natToChars n ≠ [] := by
  unfold natToChars
  split
  · simp
  · rename_i hn
    simp [natDigitsRev_ne_nil (by omega : 1 ≤ n) le_rfl]

theorem natToChars_all_digits (n : ℕ) :
    ∀ c ∈ natToChars n, isDigitChar c = true := by
  unfold natToChars
  split
  · intro c hc; simp at hc; subst hc; decide
  · intro c hc
    simp only [List.mem_map, List.mem_reverse] at hc
    obtain ⟨d, hd, rfl⟩ := hc
    exact isDigitChar_digitChar (natDigitsRev_lt10 d hd)

theorem parseDigits_natToChars (n : ℕ) : parseDigits (natToChars n) = n := by
  unfold natToChars
  split
  · subst_eqs; decide
  · rw [parseDigits_rev_ofDigits _ (fun d hd => natDigitsRev_lt10 d hd),
      ofDigits_natDigitsRev le_rfl]

theorem atoiNat_of_digits {s : List Char} (hne : s ≠ [])
    (hd : ∀ c ∈ s, isDigitChar c = true) : atoiNat s = some (parseDigits s) := by
  unfold atoiNat
  rw [if_pos ⟨hne, List.all_eq_true.2 hd⟩]

theorem atoi_of_digits {s : List Char} (hne : s ≠ [])
    (hd : ∀ c ∈ s, isDigitChar c = true) :
    atoi s = some ((parseDigits s : ℤ)) := by
  cases s with
  | nil => exact absurd rfl hne
  | cons c rest =>
    have hc : isDigitChar c = true := hd c (List.mem_cons_self c rest)
    have hplus : ¬c = '+' := by rintro rfl; simp [isDigitChar] at hc
    have hminus : ¬c = '-' := by rintro rfl; simp [isDigitChar] at hc
    rw [atoi, if_neg hplus, if_neg hminus, atoiNat_of_digits hne hd]
    simp

theorem atoi_natToChars (n : ℕ) : atoi (natToChars n) = some (n : ℤ) := by
  rw [atoi_of_digits (natToChars_ne_nil n) (natToChars_all_digits n),
    parseDigits_natToChars]

theorem atoi_neg_digits {s : List Char} (hne : s ≠ [])
    (hd : ∀ c ∈ s, isDigitChar c = true) :
    atoi ('-' :: s) = some (-(parseDigits s : ℤ)) := by
  rw [atoi, if_neg (by decide : ¬('-' : Char) = '+'), if_pos rfl,
    atoiNat_of_digits hne hd]
  simp

theorem atoi_intToChars (z : ℤ) : atoi (intToChars z) = some z := by
  unfold intToChars
  split
  · rename_i hz
    rw [atoi_neg_digits (natToChars_ne_nil _) (natToChars_all_digits _),
      parseDigits_natToChars]
    congr 1
    omega
  · rename_i hz
    rw [atoi_natToChars]
    congr 1
    omega

/-! ### Lemmas: `strings.Split` on `":"` and key round-trips -/

theorem natToChars_no_colon (n : ℕ) : ':' ∉ natToChars n := by
  intro hc
  have := natToChars_all_digits n ':' hc
  simp [isDigitChar] at this

theorem intToChars_no_colon (z : ℤ) : ':' ∉ intToChars z := by
  unfold intToChars
  split
  · intro hc
    rcases List.mem_cons.1 hc with h | h
    · exact absurd h.symm (by decide)
    · exact natToChars_no_colon _ h
  · exact natToChars_no_colon _

theorem numberPrefix_no_colon : ':' ∉ numberPrefix := by decide

theorem splitOnColon_no_colon {s : List Char} (h : ':' ∉ s) :
    splitOnColon s = [s] := by
  induction s with
  | nil => rfl
  | cons c rest ih =>
    have hc : ¬c = ':' := fun hcc => h (hcc ▸ List.mem_cons_self c rest)
    have hr : ':' ∉ rest := fun hm => h (List.mem_cons_of_mem c hm)
    rw [splitOnColon, if_neg hc, ih hr]

theorem splitOnColon_append {a : List Char} (b : List Char) (h : ':' ∉ a) :
    splitOnColon (a ++ ':' :: b) = a :: splitOnColon b := by
  induction a with
  | nil => simp [splitOnColon]
  | cons c rest ih =>
    have hc : ¬c = ':' := fun hcc => h (hcc ▸ List.mem_cons_self c rest)
    have hr : ':' ∉ rest := fun hm => h (List.mem_cons_of_mem c hm)
    rw [List.cons_append, splitOnColon, if_neg hc, ih hr]

theorem splitOnColon_mkKey (i : ℕ) (r : ℤ) :
    splitOnColon (mkKey i r) = [numberPrefix, natToChars i, intToChars r] := by
  unfold mkKey
  rw [splitOnColon_append _ numberPrefix_no_colon,
    splitOnColon_append _ (natToChars_no_colon i),
    splitOnColon_no_colon (intToChars_no_colon r)]

theorem colon_append_inj :
    ∀ {a a' b b' : List Char}, ':' ∉ a → ':' ∉ a' →
      a ++ ':' :: b = a' ++ ':' :: b' → a = a' ∧ b = b' := by
  intro a
  induction a with
  | nil =>
    intro a' b b' _ ha' heq
    cases a' with
    | nil => simpa using heq
    | cons c t =>
      simp only [List.nil_append, List.cons_append, List.cons.injEq] at heq
      exact absurd (heq.1 ▸ List.mem_cons_self c t) ha'
  | cons c t ih =>
    intro a' b b' ha ha' heq
    cases a' with
    | nil =>
      simp only [List.cons_append, List.nil_append, List.cons.injEq] at heq
      exact absurd (heq.1 ▸ List.mem_cons_self c t) ha
    | cons c' t' =>
      simp only [List.cons_append, List.cons.injEq] at heq
      have ht : ':' ∉ t := fun hm => ha (List.mem_cons_of_mem c hm)
      have ht' : ':' ∉ t' := fun hm => ha' (List.mem_cons_of_mem c' hm)
      obtain ⟨h1, h2⟩ := ih ht ht' heq.2
      exact ⟨by rw [heq.1, h1], h2⟩

theorem natToChars_inj {m n : ℕ} (h : natToChars m = natToChars n) : m = n := by
  have hm := atoi_natToChars m
  rw [h, atoi_natToChars n] at hm
  exact_mod_cast (Option.some.inj hm).symm

theorem intToChars_inj {y z : ℤ} (h : intToChars y = intToChars z) : y = z := by
  have hy := atoi_intToChars y
  rw [h, atoi_intToChars z] at hy
  exact (Option.some.inj hy).symm

theorem mkKey_inj {i i' : ℕ} {r r' : ℤ} (h : mkKey i r = mkKey i' r') :
    i = i' ∧ r = r' := by
  unfold mkKey at h
  have h2 := (List.append_cancel_left h : ':' :: (natToChars i ++ ':' :: intToChars r) =
    ':' :: (natToChars i' ++ ':' :: intToChars r'))
  have h3 := List.cons.inj h2
  obtain ⟨h4, h5⟩ := colon_append_inj (natToChars_no_colon i) (natToChars_no_colon i') h3.2
  exact ⟨natToChars_inj h4, intToChars_inj h5⟩

/-! ### Claim C10: key label round-trip -/

/-- C10: for every non-negative row index `i` and non-negative label `L`, the
key `number:<i>:<L>` written by `StoreData` (main.go:87), when parsed back by
`searchVectorInRedis` (split on `":"`, take the last part, `strconv.Atoi`,
main.go:213-224), yields exactly `L`: the predicted label returned by a
search round-trips the label under which the matching record was stored.
The reply holds the match count, the key, and the fields array. -/
theorem C10_key_label_roundtrip (i L : ℕ) (d : ℤ) :
    searchVectorInRedis (.rarr [.rint 1, .rstr (mkKey i (L : ℤ)), .rarr []]) d =
      .ok ((L : ℤ), d) := by
  unfold searchVectorInRedis parseSearchReply
  simp [splitOnColon_mkKey, atoi_intToChars]

/-! ### Claim C2: search against an empty store

With an empty index, `FT.SEARCH` returns the one-element RESP array `[0]`
(the match count with no hits).  `go-redis` surfaces it as a non-empty
`[]interface{}`, so the `!ok || len(items) == 0` guard of main.go:209 does
not fire, and `items[1]` at main.go:213 panics with an index-out-of-range
runtime error instead of returning an error to the caller. -/

/-- C2 (evaluation at the failing input): on the reply an empty index
produces — the count-only array `[0]` — `searchVectorInRedis` panics at
`items[1]` (main.go:213) rather than returning an error condition, whatever
latency the call took. -/
theorem C2_empty_store_search_panics (d : ℤ) :
    searchVectorInRedis (.rarr [.rint 0]) d = .panicked .idxOutOfRange := rfl

/-! ### Claim C4: integer-percentage accuracy -/

/-- C4: the accuracy `SearchData` reports (main.go:163) is
`100*correctGuess/(wrongGuess+correctGuess)` under Go `int` division, which
truncates toward zero; on the non-negative counts the loop produces, this is
exactly the floor of the rational percentage `100·correct/(wrong+correct)`.
`accuracyExpr` is the expression `SearchData` places in the summary's `acc`
field.  In particular (witness) 9 correct and 1 wrong report exactly 90. -/
theorem C4_accuracy_truncated_percentage (c w : ℤ) (hc : 0 ≤ c) (hw : 0 ≤ w)
    (_hpos : 0 < w + c) :
    accuracyExpr c w = ⌊(100 * (c : ℚ)) / ((w + c : ℤ) : ℚ)⌋ := by
  lift c to ℕ using hc with m
  lift w to ℕ using hw with n
  unfold accuracyExpr
  have h1 : Int.tdiv (100 * (m : ℤ)) ((n : ℤ) + (m : ℤ)) =
      ((100 * m / (n + m) : ℕ) : ℤ) := by
    exact_mod_cast (Int.ofNat_tdiv (100 * m) (n + m)).symm
  have h2 : (100 * (((m : ℤ)) : ℚ)) / (((n : ℤ) + (m : ℤ) : ℤ) : ℚ) =
      ((100 * m : ℕ) : ℚ) / ((n + m : ℕ) : ℚ) := by
    push_cast
    ring
  rw [h1, h2, ← Int.natCast_floor_eq_floor (by positivity), Nat.floor_div_eq_div]

/-- C4 witness: at 10 evaluation queries with 9 correct and 1 incorrect, the
hypotheses hold and the reported accuracy is exactly the integer 90. -/
theorem C4_accuracy_truncated_percentage_witness :
    (0 : ℤ) ≤ 9 ∧ (0 : ℤ) ≤ 1 ∧ (0 : ℤ) < 1 + 9 ∧ accuracyExpr 9 1 = 90 := by
  refine ⟨by norm_num, by norm_num, by norm_num, ?_⟩
  rw [C4_accuracy_truncated_percentage 9 1 (by norm_num) (by norm_num) (by norm_num)]
  have h : (100 * ((9 : ℤ) : ℚ)) / (((1 : ℤ) + (9 : ℤ) : ℤ) : ℚ) = ((90 : ℤ) : ℚ) := by
    norm_num
  rw [h, Int.floor_intCast]

/-! ### Claim C9: unguarded divisions on an empty evaluation set -/

/-- C9: when the test CSV has zero rows, `SearchData` reaches its summary
with `correctGuess = wrongGuess = 0` and `len(records) = 0`, so both the
accuracy expression `100*correctGuess/(wrongGuess+correctGuess)`
(main.go:163) and the average expression `totalDuration/int64(len(records))`
(main.go:166) have zero divisors; neither is guarded, and execution panics
with a division-by-zero runtime error (at the first of them), for every
environment. -/
theorem C9_empty_eval_divides_by_zero (env : ℕ → List ℚ → GoResult (ℤ × ℤ)) :
    SearchData env [] = .panicked .divByZero := rfl

/-! ### Lemmas: the first-error traversal of row fields -/

theorem optionMapAll_some_of_all {α β : Type} (f : α → Option β) :
    ∀ l : List α, (∀ a ∈ l, f a ≠ none) →
      ∃ v, optionMapAll f l = some v ∧ v.length = l.length := by
  intro l
  induction l with
  | nil => intro _; exact ⟨[], rfl, rfl⟩
  | cons a t ih =>
    intro h
    obtain ⟨b, hb⟩ := Option.ne_none_iff_exists'.1 (h a (List.mem_cons_self a t))
    obtain ⟨v, hv, hlen⟩ := ih (fun x hx => h x (List.mem_cons_of_mem a hx))
    refine ⟨b :: v, ?_, by simp [hlen]⟩
    rw [optionMapAll, hb, hv]

theorem optionMapAll_none_of_mem {α β : Type} (f : α → Option β) :
    ∀ l : List α, (∃ a ∈ l, f a = none) → optionMapAll f l = none := by
  intro l
  induction l with
  | nil => rintro ⟨a, ha, _⟩; simp at ha
  | cons a t ih =>
    rintro ⟨x, hx, hfx⟩
    rw [optionMapAll]
    rcases List.mem_cons.1 hx with rfl | hxt
    · rw [hfx]
    · cases hfa : f a with
      | none => rfl
      | some b => rw [ih ⟨x, hxt, hfx⟩]

/-! ### Lemmas: `storeRow` and the `StoreData` loop -/

theorem storeRow_of_rowOk {r : List (List Char)} (h : RowOk r) (i : ℕ) :
    ∃ L emb, atoi r.headI = some L ∧
      optionMapAll (fun s => (atoi s).map storedPixelVal) r.tail = some emb ∧
      emb.length = r.tail.length ∧
      storeRow i r = .ok ⟨mkKey i L, L, emb⟩ := by
  obtain ⟨hne, hlab, hpix⟩ := h
  cases r with
  | nil => exact absurd rfl hne
  | cons lab pixels =>
    obtain ⟨L, hL⟩ := Option.ne_none_iff_exists'.1 (by simpa using hlab)
    obtain ⟨emb, hemb, hlen⟩ :=
      optionMapAll_some_of_all (fun s => (atoi s).map storedPixelVal) pixels
        (fun p hp heq =>
          hpix p (by simpa using hp) (Option.map_eq_none'.1 heq))
    refine ⟨L, emb, by simpa using hL, by simpa using hemb, by simpa using hlen, ?_⟩
    rw [storeRow, hL, hemb]

theorem storeRow_err_of_badRow {r : List (List Char)} (h : BadRow r) (i : ℕ) :
    storeRow i r = .err .parseFailure := by
  obtain ⟨hne, hbad⟩ := h
  cases r with
  | nil => exact absurd rfl hne
  | cons lab pixels =>
    rcases hbad with hlab | ⟨p, hp, hpn⟩
    · rw [storeRow, show atoi lab = none by simpa using hlab]
    · rw [storeRow]
      cases hL : atoi lab with
      | none => rfl
      | some L =>
        rw [optionMapAll_none_of_mem _ pixels ⟨p, by simpa using hp, by simp [hpn]⟩]

theorem storeRows_all_ok {rows : List (List (List Char))}
    (h : ∀ r ∈ rows, RowOk r) : ∀ i : ℕ,
    (storeRows i rows).2 = .ok () ∧
    (storeRows i rows).1.length = rows.length ∧
    ∀ k r', rows.get? k = some r' →
      ∃ rec', (storeRows i rows).1.get? k = some rec' ∧
        storeRow (i + k) r' = .ok rec' := by
  induction rows with
  | nil => intro i; exact ⟨rfl, rfl, fun k r' hk => by simp at hk⟩
  | cons r rest ih =>
    intro i
    obtain ⟨L, emb, _, _, _, hrow⟩ := storeRow_of_rowOk (h r (List.mem_cons_self r rest)) i
    obtain ⟨ih2, ihlen, ihget⟩ := ih (fun x hx => h x (List.mem_cons_of_mem r hx)) (i + 1)
    have hrows : storeRows i (r :: rest) =
        (⟨mkKey i L, L, emb⟩ :: (storeRows (i + 1) rest).1, (storeRows (i + 1) rest).2) := by
      rw [storeRows, hrow]
    refine ⟨by rw [hrows]; exact ih2, by rw [hrows]; simpa using ihlen, ?_⟩
    intro k r' hk
    match k with
    | 0 =>
      refine ⟨⟨mkKey i L, L, emb⟩, by rw [hrows]; rfl, ?_⟩
      simp only [List.get?_cons_zero, Option.some.injEq] at hk
      rw [← hk, Nat.add_zero]
      exact hrow
    | k + 1 =>
      simp only [List.get?_cons_succ] at hk
      obtain ⟨rec', hrec, hsr⟩ := ihget k r' hk
      refine ⟨rec', ?_, ?_⟩
      · rw [hrows]
        simpa using hrec
      · rw [show i + (k + 1) = i + 1 + k by omega]
        exact hsr

theorem storeRows_append_all_ok {good : List (List (List Char))}
    (h : ∀ r ∈ good, RowOk r) (l : List (List (List Char))) : ∀ i : ℕ,
    storeRows i (good ++ l) =
      ((storeRows i good).1 ++ (storeRows (i + good.length) l).1,
        (storeRows (i + good.length) l).2) := by
  induction good with
  | nil => intro i; simp [storeRows]
  | cons r rest ih =>
    intro i
    obtain ⟨L, emb, _, _, _, hrow⟩ := storeRow_of_rowOk (h r (List.mem_cons_self r rest)) i
    have ihr := ih (fun x hx => h x (List.mem_cons_of_mem r hx)) (i + 1)
    rw [List.cons_append, storeRows, hrow, storeRows, hrow, ihr]
    simp only [List.length_cons]
    rw [show i + (rest.length + 1) = i + 1 + rest.length by omega]
    simp

theorem storeRows_badRow_head {r : List (List Char)} (h : BadRow r)
    (rest : List (List (List Char))) (i : ℕ) :
    storeRows i (r :: rest) = ([], .err .parseFailure) := by
  rw [storeRows, storeRow_err_of_badRow h]

/-! ### Lemmas: per-record facts about `storeRow` -/

theorem storeRow_key {i : ℕ} {r : List (List Char)} {rec : StoredRec}
    (h : storeRow i r = .ok rec) : rec.key = mkKey i rec.result := by
  cases r with
  | nil => exact absurd h (by rw [storeRow]; intro hc; cases hc)
  | cons lab pixels =>
    rw [storeRow] at h
    cases hL : atoi lab with
    | none => rw [hL] at h; cases h
    | some L =>
      rw [hL] at h
      cases hm : optionMapAll (fun s => (atoi s).map storedPixelVal) pixels with
      | none => rw [hm] at h; cases h
      | some emb =>
        rw [hm] at h
        cases h
        rfl

theorem storeRow_emb_result {i j : ℕ} {r : List (List Char)} {rec rec' : StoredRec}
    (h : storeRow i r = .ok rec) (h' : storeRow j r = .ok rec') :
    rec.emb = rec'.emb ∧ rec.result = rec'.result := by
  cases r with
  | nil => exact absurd h (by rw [storeRow]; intro hc; cases hc)
  | cons lab pixels =>
    rw [storeRow] at h h'
    cases hL : atoi lab with
    | none => rw [hL] at h; cases h
    | some L =>
      rw [hL] at h h'
      cases hm : optionMapAll (fun s => (atoi s).map storedPixelVal) pixels with
      | none => rw [hm] at h; cases h
      | some emb =>
        rw [hm] at h h'
        cases h
        cases h'
        exact ⟨rfl, rfl⟩


/-! ### Lemmas: `min`/`max` folds over the latency list -/

theorem ite_lt_eq_min (a b : ℤ) : (if b < a then b else a) = min a b := by
  rcases lt_or_le b a with h | h
  · rw [if_pos h, min_eq_right h.le]
  · rw [if_neg (not_lt.2 h), min_eq_left h]

theorem ite_gt_eq_max (a b : ℤ) : (if b > a then b else a) = max a b := by
  rcases lt_or_le a b with h | h
  · rw [if_pos h, max_eq_right h.le]
  · rw [if_neg (not_lt.2 h), max_eq_left h]

theorem foldl_min_spec (l : List ℤ) : ∀ a : ℤ,
    l.foldl min a ∈ a :: l ∧ l.foldl min a ≤ a ∧ ∀ d ∈ l, l.foldl min a ≤ d := by
  induction l with
  | nil => intro a; exact ⟨List.mem_cons_self a [], le_rfl, fun d hd => by simp at hd⟩
  | cons x t ih =>
    intro a
    obtain ⟨hmem, hle, hall⟩ := ih (min a x)
    have hfold : (x :: t).foldl min a = t.foldl min (min a x) := rfl
    refine ⟨?_, ?_, ?_⟩
    · rw [hfold]
      rcases List.mem_cons.1 hmem with hm | hm
      · rcases min_choice a x with hc | hc
        · rw [hm, hc]; exact List.mem_cons_self a (x :: t)
        · rw [hm, hc]; exact List.mem_cons_of_mem a (List.mem_cons_self x t)
      · exact List.mem_cons_of_mem a (List.mem_cons_of_mem x hm)
    · rw [hfold]
      exact hle.trans (min_le_left a x)
    · intro d hd
      rw [hfold]
      rcases List.mem_cons.1 hd with rfl | hdt
      · exact hle.trans (min_le_right a d)
      · exact hall d hdt

theorem foldl_max_spec (l : List ℤ) : ∀ a : ℤ,
    l.foldl max a ∈ a :: l ∧ a ≤ l.foldl max a ∧ ∀ d ∈ l, d ≤ l.foldl max a := by
  induction l with
  | nil => intro a; exact ⟨List.mem_cons_self a [], le_rfl, fun d hd => by simp at hd⟩
  | cons x t ih =>
    intro a
    obtain ⟨hmem, hle, hall⟩ := ih (max a x)
    have hfold : (x :: t).foldl max a = t.foldl max (max a x) := rfl
    refine ⟨?_, ?_, ?_⟩
    · rw [hfold]
      rcases List.mem_cons.1 hmem with hm | hm
      · rcases max_choice a x with hc | hc
        · rw [hm, hc]; exact List.mem_cons_self a (x :: t)
        · rw [hm, hc]; exact List.mem_cons_of_mem a (List.mem_cons_self x t)
      · exact List.mem_cons_of_mem a (List.mem_cons_of_mem x hm)
    · rw [hfold]
      exact (le_max_left a x).trans hle
    · intro d hd
      rw [hfold]
      rcases List.mem_cons.1 hd with rfl | hdt
      · exact (le_max_right a d).trans hle
      · exact hall d hdt

/-! ### Lemmas: single steps and runs of the `SearchData` loop -/

theorem evalLoop_cons_ok {env : ℕ → List ℚ → GoResult (ℤ × ℤ)}
    {lab : List Char} {pixels : List (List Char)} {rest : List (List (List Char))}
    {i : ℕ} {st : EvalState} {L : ℤ} {emb : List ℚ} {found duration : ℤ}
    (hL : atoi lab = some L)
    (hemb : optionMapAll (fun s => (atoi s).map queryPixelVal) pixels = some emb)
    (henv : env i emb = .ok (found, duration)) :
    evalLoop env ((lab :: pixels) :: rest) i st =
      evalLoop env rest (i + 1)
        (if L = found then
          { minD := if duration < st.minD then duration else st.minD
            maxD := if duration > st.maxD then duration else st.maxD
            totalD := st.totalD + duration
            correct := st.correct + 1
            wrong := st.wrong }
        else
          { minD := if duration < st.minD then duration else st.minD
            maxD := if duration > st.maxD then duration else st.maxD
            totalD := st.totalD + duration
            correct := st.correct
            wrong := st.wrong + 1 }) := by
  simp only [evalLoop, hL, hemb, henv]

theorem evalLoop_cons_err {env : ℕ → List ℚ → GoResult (ℤ × ℤ)}
    {lab : List Char} {pixels : List (List Char)} {rest : List (List (List Char))}
    {i : ℕ} {st : EvalState} {L : ℤ} {emb : List ℚ} {e : GoErr}
    (hL : atoi lab = some L)
    (hemb : optionMapAll (fun s => (atoi s).map queryPixelVal) pixels = some emb)
    (henv : env i emb = .err e) :
    evalLoop env ((lab :: pixels) :: rest) i st = .err e := by
  simp only [evalLoop, hL, hemb, henv]

theorem evalLoop_all_ok (fnd dur : ℕ → ℤ) :
    ∀ (rows : List (List (List Char))), (∀ r ∈ rows, RowOk r) →
    ∀ (i : ℕ) (st : EvalState),
    ∃ st', evalLoop (fun k _ => .ok (fnd k, dur k)) rows i st = .ok st' ∧
      st'.minD = ((List.range' i rows.length).map dur).foldl min st.minD ∧
      st'.maxD = ((List.range' i rows.length).map dur).foldl max st.maxD ∧
      st'.totalD = st.totalD + ((List.range' i rows.length).map dur).sum ∧
      st'.correct + st'.wrong = st.correct + st.wrong + rows.length ∧
      st.correct ≤ st'.correct ∧ st.wrong ≤ st'.wrong := by
  intro rows
  induction rows with
  | nil =>
    intro _ i st
    exact ⟨st, rfl, by simp [List.range'], by simp [List.range'],
      by simp [List.range'], by simp, le_rfl, le_rfl⟩
  | cons r rest ih =>
    intro h i st
    obtain ⟨hne, hlab, hpix⟩ := h r (List.mem_cons_self r rest)
    cases r with
    | nil => exact absurd rfl hne
    | cons lab pixels =>
      obtain ⟨L, hL⟩ := Option.ne_none_iff_exists'.1 (by simpa using hlab)
      obtain ⟨emb, hemb, _⟩ :=
        optionMapAll_some_of_all (fun s => (atoi s).map queryPixelVal) pixels
          (fun p hp heq =>
            hpix p (by simpa using hp) (Option.map_eq_none'.1 heq))
      have hstep := @evalLoop_cons_ok (fun k _ => .ok (fnd k, dur k)) lab pixels
        rest i st L emb (fnd i) (dur i) hL hemb rfl
      set st2 : EvalState :=
        if L = fnd i then
          { minD := if dur i < st.minD then dur i else st.minD
            maxD := if dur i > st.maxD then dur i else st.maxD
            totalD := st.totalD + dur i
            correct := st.correct + 1
            wrong := st.wrong }
        else
          { minD := if dur i < st.minD then dur i else st.minD
            maxD := if dur i > st.maxD then dur i else st.maxD
            totalD := st.totalD + dur i
            correct := st.correct
            wrong := st.wrong + 1 } with hst2
      obtain ⟨st', hrun, hmin, hmax, htot, hcw, hc, hw⟩ :=
        ih (fun x hx => h x (List.mem_cons_of_mem _ hx)) (i + 1) st2
      have hst2min : st2.minD = min st.minD (dur i) := by
        rcases eq_or_ne L (fnd i) with hl | hl <;> simp [hst2, hl, ite_lt_eq_min]
      have hst2max : st2.maxD = max st.maxD (dur i) := by
        rcases eq_or_ne L (fnd i) with hl | hl <;> simp [hst2, hl, ite_gt_eq_max]
      have hst2tot : st2.totalD = st.totalD + dur i := by
        rcases eq_or_ne L (fnd i) with hl | hl <;> simp [hst2, hl]
      have hst2cw : st2.correct + st2.wrong = st.correct + st.wrong + 1 := by
        rcases eq_or_ne L (fnd i) with hl | hl <;> simp [hst2, hl] <;> ring
      have hst2c : st.correct ≤ st2.correct := by
        rcases eq_or_ne L (fnd i) with hl | hl <;> simp [hst2, hl]
      have hst2w : st.wrong ≤ st2.wrong := by
        rcases eq_or_ne L (fnd i) with hl | hl <;> simp [hst2, hl]
      have hrange : List.range' i (rest.length + 1) = i :: List.range' (i + 1) rest.length :=
        rfl
      refine ⟨st', by rw [hstep]; exact hrun, ?_, ?_, ?_, ?_, ?_, ?_⟩
      · rw [hmin, hst2min]
        simp [List.length_cons, hrange]
      · rw [hmax, hst2max]
        simp [List.length_cons, hrange]
      · rw [htot, hst2tot]
        simp [List.length_cons, hrange]
        ring
      · rw [List.length_cons, hcw, hst2cw]
        push_cast
        ring
      · exact hst2c.trans hc
      · exact hst2w.trans hw

theorem evalLoop_first_err (env : ℕ → List ℚ → GoResult (ℤ × ℤ)) (e : GoErr) :
    ∀ (pre : List (List (List Char))) (bad : List (List Char))
      (rest : List (List (List Char))) (i : ℕ) (st : EvalState),
    (∀ r ∈ pre, RowOk r) → RowOk bad →
    (∀ k emb, k < pre.length → ∃ p, env (i + k) emb = .ok p) →
    (∀ emb, env (i + pre.length) emb = .err e) →
    evalLoop env (pre ++ bad :: rest) i st = .err e := by
  intro pre
  induction pre with
  | nil =>
    intro bad rest i st _ hbad _ herr
    obtain ⟨hne, hlab, hpix⟩ := hbad
    cases bad with
    | nil => exact absurd rfl hne
    | cons lab pixels =>
      obtain ⟨L, hL⟩ := Option.ne_none_iff_exists'.1 (by simpa using hlab)
      obtain ⟨emb, hemb, _⟩ :=
        optionMapAll_some_of_all (fun s => (atoi s).map queryPixelVal) pixels
          (fun p hp heq =>
            hpix p (by simpa using hp) (Option.map_eq_none'.1 heq))
      rw [List.nil_append]
      exact evalLoop_cons_err hL hemb (by simpa using herr emb)
  | cons r pre ih =>
    intro bad rest i st hpre hbad hok herr
    obtain ⟨hne, hlab, hpix⟩ := hpre r (List.mem_cons_self r pre)
    cases r with
    | nil => exact absurd rfl hne
    | cons lab pixels =>
      obtain ⟨L, hL⟩ := Option.ne_none_iff_exists'.1 (by simpa using hlab)
      obtain ⟨emb, hemb, _⟩ :=
        optionMapAll_some_of_all (fun s => (atoi s).map queryPixelVal) pixels
          (fun p hp heq =>
            hpix p (by simpa using hp) (Option.map_eq_none'.1 heq))
      obtain ⟨⟨found, duration⟩, henv⟩ := hok 0 emb (by simp)
      rw [Nat.add_zero] at henv
      rw [List.cons_append, evalLoop_cons_ok hL hemb henv]
      exact ih bad rest (i + 1) _
        (fun x hx => hpre x (List.mem_cons_of_mem _ hx)) hbad
        (fun k emb' hk => by
          have := hok (k + 1) emb' (by simpa using Nat.succ_lt_succ hk)
          rwa [show i + (k + 1) = i + 1 + k by omega] at this)
        (fun emb' => by
          have := herr emb'
          rwa [show i + ((lab :: pixels) :: pre).length = i + 1 + pre.length from by
            simp [List.length_cons]
            omega] at this)

theorem readAll_singleton (r : List (List Char)) : readAll [r] = .ok () := by
  simp [readAll]

theorem SearchData_all_ok (fnd dur : ℕ → ℤ) (rows : List (List (List Char)))
    (hrows : ∀ r ∈ rows, RowOk r) (hfc : readAll rows = .ok ()) (hne : rows ≠ []) :
    ∃ st' : EvalState,
      evalLoop (fun k _ => .ok (fnd k, dur k)) rows 0 ⟨999999, 0, 0, 0, 0⟩ = .ok st' ∧
      SearchData (fun k _ => .ok (fnd k, dur k)) rows =
        .ok ⟨st'.correct, st'.wrong, accuracyExpr st'.correct st'.wrong,
             st'.minD, st'.maxD, Int.tdiv st'.totalD (rows.length : ℤ)⟩ ∧
      st'.minD = ((List.range' 0 rows.length).map dur).foldl min 999999 ∧
      st'.maxD = ((List.range' 0 rows.length).map dur).foldl max 0 ∧
      st'.totalD = ((List.range' 0 rows.length).map dur).sum ∧
      st'.correct + st'.wrong = (rows.length : ℤ) ∧ 0 ≤ st'.correct ∧ 0 ≤ st'.wrong := by
  obtain ⟨st', hrun, hmin, hmax, htot, hcw, hc, hw⟩ :=
    evalLoop_all_ok fnd dur rows hrows 0 ⟨999999, 0, 0, 0, 0⟩
  have hlenpos : 1 ≤ rows.length := by
    cases rows with
    | nil => exact absurd rfl hne
    | cons r t => simp
  have hcw' : st'.correct + st'.wrong = (rows.length : ℤ) := by
    rw [hcw]; push_cast; ring
  have hnz : ¬(st'.wrong + st'.correct = 0) := by
    have : (1 : ℤ) ≤ (rows.length : ℤ) := by exact_mod_cast hlenpos
    omega
  have hlz : ¬((rows.length : ℤ) = 0) := by
    have : (1 : ℤ) ≤ (rows.length : ℤ) := by exact_mod_cast hlenpos
    omega
  refine ⟨st', hrun, ?_, by simpa using hmin, by simpa using hmax, by simpa using htot,
    hcw', by simpa using hc, by simpa using hw⟩
  simp only [SearchData, hfc, hrun, if_neg hnz, if_neg hlz]

/-! ### Claim C3: abort on a malformed ingestion row -/

/-- C3 counterexample: ingesting the two rows `1,0` and `2,x` (the second has
the non-numeric pixel `x`) makes `StoreData` return an error, but the record
built from the first row has already been written: the store is *not* left
unchanged, refuting the claim that no records from the run are stored. -/
theorem C3_counterexample :
    (StoreData [[['1'], ['0']], [['2'], ['x']]]).2 = .err .parseFailure ∧
    (StoreData [[['1'], ['0']], [['2'], ['x']]]).1.length = 1 :=
  ⟨by decide, by decide⟩

/-- C3 (amended): `StoreData` aborts with an error at the first row with a
malformed label or pixel; the malformed row is never skipped and nothing from
it or any later row is stored, but the rows *preceding* it have already been
written and remain in the store (exactly one stored record per preceding
row).  A row with the wrong field count never reaches the loop: `ReadAll`
fails up front (and then nothing at all is stored), and only field counts
differing from the first record's are detected at all. -/
theorem C3_abort_at_first_bad_row (good : List (List (List Char)))
    (bad : List (List Char)) (rest : List (List (List Char)))
    (hg : ∀ r ∈ good, RowOk r) (hb : BadRow bad)
    (hfc : readAll (good ++ bad :: rest) = .ok ()) :
    (StoreData (good ++ bad :: rest)).2 = .err .parseFailure ∧
    (StoreData (good ++ bad :: rest)).1.length = good.length := by
  have hsd : StoreData (good ++ bad :: rest) = storeRows 0 (good ++ bad :: rest) := by
    simp only [StoreData, hfc]
  obtain ⟨_, hlen, _⟩ := storeRows_all_ok hg 0
  rw [hsd, storeRows_append_all_ok hg _ 0, storeRows_badRow_head hb]
  exact ⟨rfl, by simpa using hlen⟩

/-- C3 witness: one good row `1,0` followed by the bad row `2,x`; ingestion
errors and exactly the one preceding record is stored. -/
theorem C3_abort_at_first_bad_row_witness :
    (∀ r ∈ [[['1'], ['0']]], RowOk r) ∧ BadRow [['2'], ['x']] ∧
    readAll ([[['1'], ['0']]] ++ [['2'], ['x']] :: []) = .ok () ∧
    (StoreData ([[['1'], ['0']]] ++ [['2'], ['x']] :: [])).2 = .err .parseFailure ∧
    (StoreData ([[['1'], ['0']]] ++ [['2'], ['x']] :: [])).1.length =
      [[['1'], ['0']]].length :=
  ⟨by decide, by decide, by decide,
    (C3_abort_at_first_bad_row [[['1'], ['0']]] [['2'], ['x']] [] (by decide) (by decide)
      (by decide)).1,
    (C3_abort_at_first_bad_row [[['1'], ['0']]] [['2'], ['x']] [] (by decide) (by decide)
      (by decide)).2⟩

/-! ### Claim C5: no dimension validation in this repository -/

/-- C5 counterexample: a single training row with only two pixel fields is
ingested successfully and stored with an embedding of length 2 ≠ 784 — the
store does not reject records whose embedding length differs from the
configured dimension.  (The `DIM 784` constraint lives in the external Redis
index created by `CreateIndex`, not in this code.) -/
theorem C5_counterexample :
    (StoreData [[['3'], ['0'], ['7']]]).2 = .ok () ∧
    (StoreData [[['3'], ['0'], ['7']]]).1.map (fun rec => rec.emb.length) = [2] :=
  ⟨by decide, by decide⟩

/-- C5 (amended): the repository's own code performs no dimension check on
either path.  `StoreData` stores one record per parseable row with an
embedding exactly as long as the row's pixel list, whatever that length is;
and `SearchData` builds and issues a query from an embedding of any length,
completing without any dimension error whenever the environment answers.
Any `DimensionMismatch`-style rejection can only come from the external
Redis index (`DIM 784` in `CreateIndex`), outside this code. -/
theorem C5_no_dimension_check (lab : List Char) (pixels : List (List Char)) (L : ℤ)
    (hl : atoi lab = some L) (hp : ∀ p ∈ pixels, atoi p ≠ none) :
    (∃ emb : List ℚ, emb.length = pixels.length ∧
      StoreData [lab :: pixels] = ([⟨mkKey 0 L, L, emb⟩], .ok ())) ∧
    ∀ fnd dur : ℕ → ℤ, ∃ s : Summary,
      SearchData (fun k _ => .ok (fnd k, dur k)) [lab :: pixels] = .ok s := by
  have hrowOk : RowOk (lab :: pixels) := ⟨by simp, by simp [hl], by simpa using hp⟩
  constructor
  · obtain ⟨L', emb, hL', hemb, hlen, hrow⟩ := storeRow_of_rowOk hrowOk 0
    have hLL : L' = L := by
      rw [show (lab :: pixels).headI = lab from rfl, hl] at hL'
      exact (Option.some.inj hL').symm
    subst hLL
    refine ⟨emb, by simpa using hlen, ?_⟩
    have hsd : StoreData [lab :: pixels] = storeRows 0 [lab :: pixels] := by
      simp only [StoreData, readAll_singleton]
    rw [hsd, storeRows, hrow]
    rfl
  · intro fnd dur
    obtain ⟨st', _, hsearch, _⟩ :=
      SearchData_all_ok fnd dur [lab :: pixels] (fun r hr => by
          rw [List.mem_singleton.1 hr]; exact hrowOk)
        (readAll_singleton _) (by simp)
    exact ⟨_, hsearch⟩

/-- C5 witness: the hypotheses hold for the row `3,0,7`, whose stored
embedding has length 2, differing from the configured dimension 784. -/
theorem C5_no_dimension_check_witness :
    atoi ['3'] = some 3 ∧ (∀ p ∈ [['0'], ['7']], atoi p ≠ none) ∧
    ((∃ emb : List ℚ, emb.length = [['0'], ['7']].length ∧
        StoreData [['3'] :: [['0'], ['7']]] = ([⟨mkKey 0 3, 3, emb⟩], .ok ())) ∧
      ∀ fnd dur : ℕ → ℤ, ∃ s : Summary,
        SearchData (fun k _ => .ok (fnd k, dur k)) [['3'] :: [['0'], ['7']]] = .ok s) ∧
    [['0'], ['7']].length ≠ 784 :=
  ⟨by decide, by decide,
    C5_no_dimension_check ['3'] [['0'], ['7']] 3 (by decide) (by decide), by decide⟩

/-! ### Claim C6: latency aggregates -/

/-- C6 counterexample: for a run whose single query takes 1000000 ms, the
reported minimum is the initial sentinel 999999 (main.go:228), not the least
per-query latency 1000000, because `duration < minDuration` never fires —
refuting the claim that the reported minimum always equals the least
latency. -/
theorem C6_counterexample :
    SearchData (fun _ _ => .ok (0, 1000000)) [[['0']]] =
      .ok ⟨1, 0, 100, 999999, 1000000, 1000000⟩ ∧ (999999 : ℤ) ≠ 1000000 :=
  ⟨by decide, by decide⟩

/-- C6 (amended): over any successful evaluation run with a non-empty row
list and non-negative latencies, the reported maximum is the greatest
per-query latency (it is attained and dominates all others), the reported
average is the total divided by the query count with Go `int64` truncation
(`Int.tdiv`), and every query is counted; but the reported minimum is
`min 999999 m` where `m` is the least per-query latency — it equals the
least latency only when some latency is at most the 999999 sentinel that
`main` uses to initialize `minDuration` (main.go:228). -/
theorem C6_latency_aggregates (fnd dur : ℕ → ℤ) (rows : List (List (List Char)))
    (hrows : ∀ r ∈ rows, RowOk r) (hfc : readAll rows = .ok ())
    (hne : rows ≠ []) (hdur : ∀ k, 0 ≤ dur k) :
    ∃ s : Summary, SearchData (fun k _ => .ok (fnd k, dur k)) rows = .ok s ∧
      (∃ m ∈ (List.range' 0 rows.length).map dur,
        (∀ d ∈ (List.range' 0 rows.length).map dur, m ≤ d) ∧ s.minD = min 999999 m) ∧
      (s.maxD ∈ (List.range' 0 rows.length).map dur ∧
        ∀ d ∈ (List.range' 0 rows.length).map dur, d ≤ s.maxD) ∧
      s.avgD = Int.tdiv ((List.range' 0 rows.length).map dur).sum (rows.length : ℤ) ∧
      s.correct + s.wrong = (rows.length : ℤ) := by
  obtain ⟨st', _, hsearch, hmin, hmax, htot, hcw, hc0, hw0⟩ :=
    SearchData_all_ok fnd dur rows hrows hfc hne
  set ds : List ℤ := (List.range' 0 rows.length).map dur with hds
  have hdsne : ds ≠ [] := by
    intro hnil
    have hl := congrArg List.length hnil
    rw [hds] at hl
    simp [List.length_range'] at hl
    exact hne hl
  have hnonneg : ∀ d ∈ ds, 0 ≤ d := by
    intro d hd
    rw [hds] at hd
    obtain ⟨k, _, rfl⟩ := List.mem_map.1 hd
    exact hdur k
  refine ⟨⟨st'.correct, st'.wrong, accuracyExpr st'.correct st'.wrong,
    st'.minD, st'.maxD, Int.tdiv st'.totalD (rows.length : ℤ)⟩, hsearch, ?_, ?_, ?_, ?_⟩
  · -- the minimum conjunct
    obtain ⟨d, t, hcase⟩ := List.exists_cons_of_ne_nil hdsne
    obtain ⟨hMmem, hMd, hMall⟩ := foldl_min_spec t d
    have hMds : t.foldl min d ∈ ds := by rw [hcase]; exact hMmem
    have hMleast : ∀ x ∈ ds, t.foldl min d ≤ x := by
      intro x hx
      rw [hcase] at hx
      rcases List.mem_cons.1 hx with rfl | hxt
      · exact hMd
      · exact hMall x hxt
    obtain ⟨hRmem, hR9, hRall⟩ := foldl_min_spec ds 999999
    refine ⟨t.foldl min d, hMds, hMleast, ?_⟩
    show st'.minD = min 999999 (t.foldl min d)
    rw [hmin]
    refine le_antisymm (le_min hR9 (hRall _ hMds)) ?_
    rcases List.mem_cons.1 hRmem with hr | hr
    · rw [hr]
      exact min_le_left _ _
    · exact le_trans (min_le_right 999999 _) (hMleast _ hr)
  · -- the maximum conjunct
    obtain ⟨hXmem, hX0, hXall⟩ := foldl_max_spec ds 0
    have hXds : ds.foldl max 0 ∈ ds := by
      rcases List.mem_cons.1 hXmem with hx | hx
      · obtain ⟨d, t, hcase⟩ := List.exists_cons_of_ne_nil hdsne
        have hd : d ∈ ds := by rw [hcase]; exact List.mem_cons_self d t
        have h1 : d ≤ ds.foldl max 0 := hXall d hd
        have h2 : 0 ≤ d := hnonneg d hd
        have h3 : ds.foldl max 0 = d := by omega
        rw [h3]
        exact hd
      · exact hx
    constructor
    · show st'.maxD ∈ ds
      rw [hmax]
      exact hXds
    · intro d hd
      show d ≤ st'.maxD
      rw [hmax]
      exact hXall d hd
  · -- the average conjunct
    show Int.tdiv st'.totalD (rows.length : ℤ) = Int.tdiv ds.sum (rows.length : ℤ)
    rw [htot]
  · -- every query is counted
    exact hcw

/-- C6 witness: a one-row run with latency 3 ms satisfies every hypothesis. -/
theorem C6_latency_aggregates_witness :
    (∀ r ∈ [[['0']]], RowOk r) ∧ readAll [[['0']]] = .ok () ∧ [[['0']]] ≠ [] ∧
    (∀ _k : ℕ, (0 : ℤ) ≤ 3) ∧
    ∃ s : Summary, SearchData (fun _ _ => .ok (0, 3)) [[['0']]] = .ok s ∧
      (∃ m ∈ (List.range' 0 [[['0']]].length).map (fun _ => (3 : ℤ)),
        (∀ d ∈ (List.range' 0 [[['0']]].length).map (fun _ => (3 : ℤ)), m ≤ d) ∧
          s.minD = min 999999 m) ∧
      ((s.maxD ∈ (List.range' 0 [[['0']]].length).map (fun _ => (3 : ℤ))) ∧
        ∀ d ∈ (List.range' 0 [[['0']]].length).map (fun _ => (3 : ℤ)), d ≤ s.maxD) ∧
      s.avgD = Int.tdiv ((List.range' 0 [[['0']]].length).map (fun _ => (3 : ℤ))).sum
        ([[['0']]].length : ℤ) ∧
      s.correct + s.wrong = ([[['0']]].length : ℤ) :=
  ⟨by decide, by decide, by decide, fun _ => by norm_num,
    C6_latency_aggregates (fun _ => 0) (fun _ => 3) [[['0']]] (by decide) (by decide)
      (by decide) (fun _ => by norm_num)⟩

/-! ### Claim C7: a per-query search failure aborts the evaluation -/

/-- C7: if the environment answers the first `pre.length` search calls
successfully and fails the next one with error `e` (while the rows parse
cleanly), `SearchData` returns exactly that error: the evaluation run aborts
at the failing query — whatever rows follow it are never processed — no
summary is produced, and in particular the failed query is counted neither
as a correct nor as a wrong guess, since the function returns before the
counter update of main.go:155-159. -/
theorem C7_search_failure_aborts_eval (env : ℕ → List ℚ → GoResult (ℤ × ℤ))
    (pre : List (List (List Char))) (bad : List (List Char))
    (rest : List (List (List Char))) (e : GoErr)
    (hpre : ∀ r ∈ pre, RowOk r) (hbad : RowOk bad)
    (hfc : readAll (pre ++ bad :: rest) = .ok ())
    (hok : ∀ k emb, k < pre.length → ∃ p, env k emb = .ok p)
    (herr : ∀ emb, env pre.length emb = .err e) :
    SearchData env (pre ++ bad :: rest) = .err e ∧
    ∀ s, SearchData env (pre ++ bad :: rest) ≠ .ok s := by
  have hloop := evalLoop_first_err env e pre bad rest 0 ⟨999999, 0, 0, 0, 0⟩ hpre hbad
    (fun k emb hk => by simpa using hok k emb hk)
    (fun emb => by simpa using herr emb)
  have habort : SearchData env (pre ++ bad :: rest) = .err e := by
    simp only [SearchData, hfc, hloop]
  exact ⟨habort, fun s hs => by rw [habort] at hs; cases hs⟩

/-- C7 witness: an environment that fails the very first search aborts a
one-row evaluation with that error and never yields a summary. -/
theorem C7_search_failure_aborts_eval_witness :
    RowOk [['0']] ∧ readAll ([] ++ [['0']] :: []) = .ok () ∧
    SearchData (fun _ _ => .err .external) ([] ++ [['0']] :: []) = .err .external ∧
    ∀ s, SearchData (fun _ _ => .err .external) ([] ++ [['0']] :: []) ≠ .ok s :=
  ⟨by decide, by decide,
    (C7_search_failure_aborts_eval (fun _ _ => .err .external) [] [['0']] [] .external
      (fun r hr => absurd hr (List.not_mem_nil r)) (by decide) (by decide)
      (fun k emb hk => absurd hk (Nat.not_lt_zero k)) (fun emb => rfl)).1,
    (C7_search_failure_aborts_eval (fun _ _ => .err .external) [] [['0']] [] .external
      (fun r hr => absurd hr (List.not_mem_nil r)) (by decide) (by decide)
      (fun k emb hk => absurd hk (Nat.not_lt_zero k)) (fun emb => rfl)).2⟩

/-! ### Claim C8: keys derived from the row index, unique, and not part of
the similarity payload -/

/-- C8: in any fully successful ingestion run, `StoreData` writes exactly
one record per row; the `k`-th record's key is `number:<k>:<label>` —
derived from the strictly increasing row index `k` of the enumeration at
main.go:56 — and these keys are pairwise distinct within the run; moreover
the similarity payload (the `embedding` array) and the `result` field are
functions of the row's fields alone: rows with identical content stored
under different indices receive identical embeddings, so the key/id never
feeds the similarity comparison, only storage addressing. -/
theorem C8_keys_unique_from_row_index (rows : List (List (List Char)))
    (h : ∀ r ∈ rows, RowOk r) (hfc : readAll rows = .ok ()) :
    (StoreData rows).2 = .ok () ∧
    (StoreData rows).1.length = rows.length ∧
    (∀ k rec, (StoreData rows).1.get? k = some rec →
      rec.key = mkKey k rec.result) ∧
    ((StoreData rows).1.map (fun rec => rec.key)).Pairwise (· ≠ ·) ∧
    (∀ k k' rec rec', (StoreData rows).1.get? k = some rec →
      (StoreData rows).1.get? k' = some rec' → rows.get? k = rows.get? k' →
      rec.emb = rec'.emb ∧ rec.result = rec'.result) := by
  have hsd : StoreData rows = storeRows 0 rows := by
    simp only [StoreData, hfc]
  obtain ⟨h2, hlen, hget⟩ := storeRows_all_ok h 0
  have hkey : ∀ k rec, (storeRows 0 rows).1.get? k = some rec →
      rec.key = mkKey k rec.result := by
    intro k rec hrec
    have hk : k < (storeRows 0 rows).1.length := (List.get?_eq_some.1 hrec).1
    have hk' : k < rows.length := hlen ▸ hk
    obtain ⟨rec', hrec', hsr⟩ := hget k (rows.get ⟨k, hk'⟩) (List.get?_eq_get hk')
    rw [hrec] at hrec'
    obtain rfl := Option.some.inj hrec'
    rw [Nat.zero_add] at hsr
    exact storeRow_key hsr
  refine ⟨by rw [hsd]; exact h2, by rw [hsd]; exact hlen, by rw [hsd]; exact hkey,
    ?_, ?_⟩
  · rw [hsd]
    have hpw : (storeRows 0 rows).1.Pairwise (fun x y => x.key ≠ y.key) := by
      rw [List.pairwise_iff_get]
      intro a b hab heq
      have hka := hkey a _ (List.get?_eq_get a.2)
      have hkb := hkey b _ (List.get?_eq_get b.2)
      rw [hka, hkb] at heq
      exact hab.ne (Fin.val_injective (mkKey_inj heq).1)
    exact hpw.map _ (fun x y hxy => hxy)
  · intro k k' rec rec' hrec hrec' hrr
    rw [hsd] at hrec hrec'
    have hk : k < (storeRows 0 rows).1.length := (List.get?_eq_some.1 hrec).1
    have hk2 : k < rows.length := hlen ▸ hk
    have hl : k' < (storeRows 0 rows).1.length := (List.get?_eq_some.1 hrec').1
    have hl2 : k' < rows.length := hlen ▸ hl
    obtain ⟨a, ha, hsa⟩ := hget k (rows.get ⟨k, hk2⟩) (List.get?_eq_get hk2)
    obtain ⟨b, hb, hsb⟩ := hget k' (rows.get ⟨k', hl2⟩) (List.get?_eq_get hl2)
    rw [hrec] at ha
    obtain rfl := Option.some.inj ha
    rw [hrec'] at hb
    obtain rfl := Option.some.inj hb
    have hsame : rows.get ⟨k, hk2⟩ = rows.get ⟨k', hl2⟩ := by
      have h1 := List.get?_eq_get hk2
      have h2 := List.get?_eq_get hl2
      rw [hrr] at h1
      rw [h2] at h1
      exact (Option.some.inj h1).symm
    rw [hsame] at hsa
    exact storeRow_emb_result hsa hsb

/-- C8 witness: two rows `1,0` and `2,5`; the run succeeds, stores two
records with distinct keys derived from the row indices 0 and 1, and the
conclusion's field-wise properties hold. -/
theorem C8_keys_unique_from_row_index_witness :
    (∀ r ∈ [[['1'], ['0']], [['2'], ['5']]], RowOk r) ∧
    readAll [[['1'], ['0']], [['2'], ['5']]] = .ok () ∧
    ((StoreData [[['1'], ['0']], [['2'], ['5']]]).2 = .ok () ∧
      (StoreData [[['1'], ['0']], [['2'], ['5']]]).1.length =
        [[['1'], ['0']], [['2'], ['5']]].length ∧
      (∀ k rec, (StoreData [[['1'], ['0']], [['2'], ['5']]]).1.get? k = some rec →
        rec.key = mkKey k rec.result) ∧
      ((StoreData [[['1'], ['0']], [['2'], ['5']]]).1.map
        (fun rec => rec.key)).Pairwise (· ≠ ·) ∧
      (∀ k k' rec rec',
        (StoreData [[['1'], ['0']], [['2'], ['5']]]).1.get? k = some rec →
        (StoreData [[['1'], ['0']], [['2'], ['5']]]).1.get? k' = some rec' →
        [[['1'], ['0']], [['2'], ['5']]].get? k = [[['1'], ['0']], [['2'], ['5']]].get? k' →
        rec.emb = rec'.emb ∧ rec.result = rec'.result)) :=
  ⟨by decide, by decide,
    C8_keys_unique_from_row_index [[['1'], ['0']], [['2'], ['5']]] (by decide) (by decide)⟩

/-! ### Claim C1: stored versus query-time normalization

Interpretation bridges between the integer significand/exponent computations
and the rational values they denote. -/

theorem dyadic_eq_decimal_iff (m s : ℕ) (e : ℤ) (he : e ≤ 0) :
    ((m : ℚ) * 2 ^ e = (s : ℚ) / 10 ^ 6) ↔ m * 10 ^ 6 = s * 2 ^ (-e).toNat := by
  obtain ⟨k, rfl⟩ : ∃ k : ℕ, e = -(k : ℤ) := ⟨(-e).toNat, by omega⟩
  rw [show ((-(-(k : ℤ))).toNat) = k by omega, zpow_neg, zpow_natCast,
    ← div_eq_mul_inv, div_eq_div_iff (by positivity) (by positivity)]
  norm_cast

theorem dyadic_le_one_iff (m : ℕ) (e : ℤ) (he : e ≤ 0) :
    ((m : ℚ) * 2 ^ e ≤ 1) ↔ m ≤ 2 ^ (-e).toNat := by
  obtain ⟨k, rfl⟩ : ∃ k : ℕ, e = -(k : ℤ) := ⟨(-e).toNat, by omega⟩
  rw [show ((-(-(k : ℤ))).toNat) = k by omega, zpow_neg, zpow_natCast,
    ← div_eq_mul_inv, div_le_one (by positivity)]
  norm_cast

theorem dyadic_nonneg (m : ℕ) (e : ℤ) : (0 : ℚ) ≤ (m : ℚ) * 2 ^ e := by positivity

theorem storedPixelVal_natCast {p : ℕ} (hp : 0 < p) :
    storedPixelVal (p : ℤ) = (sNum p : ℚ) / 10 ^ 6 := by
  have h0 : ¬((p : ℤ) = 0) := by exact_mod_cast hp.ne'
  simp [storedPixelVal, h0, Int.sign_eq_one_of_pos (by exact_mod_cast hp : (0 : ℤ) < p)]

theorem queryPixelVal_natCast {p : ℕ} (hp : 0 < p) :
    queryPixelVal (p : ℤ) = (qm p : ℚ) * 2 ^ qe p := by
  have h0 : ¬((p : ℤ) = 0) := by exact_mod_cast hp.ne'
  simp [queryPixelVal, h0, Int.sign_eq_one_of_pos (by exact_mod_cast hp : (0 : ℤ) < p)]

/-- C1 counterexample: for the raw pixel intensity 1, the value `StoreData`
places in the stored JSON embedding (the six-decimal rendering `0.003922`)
differs from the value `SearchData` computes and sends in the query blob
(the exact `float32` quotient `8421505 · 2⁻³¹`): the normalized value stored
during ingestion does not equal the one computed for the same raw row at
query time, refuting the claim. -/
theorem C1_counterexample : storedPixelVal 1 ≠ queryPixelVal 1 := by
  have hq : qe 1 ≤ 0 := by decide
  have hne : ¬(qm 1 * 10 ^ 6 = sNum 1 * 2 ^ (-(qe 1)).toNat) := by decide
  intro heq
  apply hne
  rw [← dyadic_eq_decimal_iff (qm 1) (sNum 1) (qe 1) hq]
  have h1 : storedPixelVal 1 = (sNum 1 : ℚ) / 10 ^ 6 := storedPixelVal_natCast one_pos
  have h2 : queryPixelVal 1 = (qm 1 : ℚ) * 2 ^ qe 1 := queryPixelVal_natCast one_pos
  rw [h1, h2] at heq
  exact heq.symm

set_option maxRecDepth 8000 in
/-- Decidable core of C1, checked by evaluation over all 256 raw pixel
intensities: the `binary32` exponent of `float32(p)/255.0` is nonpositive,
the value is at most 1, and its six-decimal rendering denotes the value back
exactly only for `p = 255` (the `p = 0` case never reaches these functions:
ingestion special-cases it). -/
theorem c1_key_facts : ∀ q : ℕ, q < 256 → 0 < q →
    qe q ≤ 0 ∧ qm q ≤ 2 ^ (-(qe q)).toNat ∧
    ((qm q * 10 ^ 6 = sNum q * 2 ^ (-(qe q)).toNat) ↔ q = 255) := by decide

/-- C1 (amended): for every raw pixel intensity `p < 256`, the query-time
normalization is the correctly rounded `float32` of `p/255`, lying in
`[0, 1]`, and `p = 0` maps exactly to `0` on both paths (the ingestion path
special-cases it to the literal `"0"`); but the ingestion path stores the
value formatted to six decimal places, so the stored value equals the
query-time value exactly when `p = 0` or `p = 255` — for every other `p`
the two normalizations of the same raw row differ. -/
theorem C1_normalization_amended (p : ℕ) (hp : p < 256) :
    (storedPixelVal (p : ℤ) = queryPixelVal (p : ℤ) ↔ p = 0 ∨ p = 255) ∧
    0 ≤ queryPixelVal (p : ℤ) ∧ queryPixelVal (p : ℤ) ≤ 1 ∧
    storedPixelVal 0 = 0 ∧ queryPixelVal 0 = 0 := by
  have key := c1_key_facts
  rcases Nat.eq_zero_or_pos p with rfl | hpos
  · have hs : storedPixelVal ((0 : ℕ) : ℤ) = 0 := rfl
    have hqv : queryPixelVal ((0 : ℕ) : ℤ) = 0 := rfl
    refine ⟨?_, ?_, ?_, rfl, rfl⟩
    · rw [hs, hqv]
      simp
    · rw [hqv]
    · rw [hqv]
      norm_num
  · obtain ⟨hq, hle, hiff⟩ := key p hp hpos
    have h1 := storedPixelVal_natCast hpos
    have h2 := queryPixelVal_natCast hpos
    refine ⟨?_, ?_, ?_, rfl, rfl⟩
    · rw [h1, h2]
      constructor
      · intro heq
        exact Or.inr (hiff.1 ((dyadic_eq_decimal_iff (qm p) (sNum p) (qe p) hq).1 heq.symm))
      · intro hor
        rcases hor with h0 | h255
        · exact absurd h0 hpos.ne'
        · exact ((dyadic_eq_decimal_iff (qm p) (sNum p) (qe p) hq).2 (hiff.2 h255)).symm
    · rw [h2]
      exact dyadic_nonneg _ _
    · rw [h2]
      exact (dyadic_le_one_iff (qm p) (qe p) hq).2 hle

/-- C1 witness: the amended statement instantiated at the raw intensity 1,
whose stored and query-time values differ. -/
theorem C1_normalization_amended_witness :
    (1 : ℕ) < 256 ∧
    ((storedPixelVal ((1 : ℕ) : ℤ) = queryPixelVal ((1 : ℕ) : ℤ) ↔
        (1 : ℕ) = 0 ∨ (1 : ℕ) = 255) ∧
      0 ≤ queryPixelVal ((1 : ℕ) : ℤ) ∧ queryPixelVal ((1 : ℕ) : ℤ) ≤ 1 ∧
      storedPixelVal 0 = 0 ∧ queryPixelVal 0 = 0) :=
  ⟨by norm_num, C1_normalization_amended 1 (by norm_num)⟩
